import Mathlib

/-!
Verification of the AlphaPortfolio front-end core: the dynamic form builder
(src/alpha-portfolio/src/components/ui/forms/FormBuilder.tsx) and the
active-link evaluator (src/alpha-portfolio/src/components/ui/nav/ActiveLink.tsx).

The embedding is shallow: JS objects keyed by strings become association
lists with JS-object update semantics (update in place when the key exists,
append otherwise; lookup finds the first occurrence), JS `unknown` form
values become the inductive `Value` (with `Value.undef` standing for the JS
`undefined` produced by indexing a missing key), and the numeric value of a
number input (JS `valueAsNumber`) is abstracted as an integer carried by the
change event, since no claim depends on float arithmetic.
-/

namespace AlphaPortfolio

/-- A JS form value (`unknown` in the source). `undef` is JS `undefined`. -/
inductive Value where
  | undef
  | str (s : String)
  | num (n : Int)
  | bool (b : Bool)
  | list (l : List String)
  deriving DecidableEq, Repr

/-- A JS object keyed by strings: association list, unique keys maintained
by `RMap.set` (mirrors a JS `Record` as used for values and errors). -/
abbrev RMap (α : Type) : Type := List (String × α)

namespace RMap

variable {α : Type}

/-- Lookup of a key (first occurrence); JS property read, `none` = absent. -/
def get? : RMap α → String → Option α
  | [], _ => none
  | (k', v) :: rest, k => if k' = k then some v else get? rest k

/-- JS `in` operator: is the key present. -/
def contains (m : RMap α) (k : String) : Bool :=
  (m.get? k).isSome

/-- JS property write / computed-key spread: replace in place if the key is
present, append otherwise. -/
def set : RMap α → String → α → RMap α
  | [], k, v => [(k, v)]
  | (k', v') :: rest, k, v =>
      if k' = k then (k, v) :: rest else (k', v') :: set rest k v

/-- JS object spread of the second map over the first. -/
def merge (m1 m2 : RMap α) : RMap α :=
  m2.foldl (fun acc kv => acc.set kv.1 kv.2) m1

/-- JS `Object.keys`. -/
def keys (m : RMap α) : List String :=
  m.map Prod.fst

/-- JS indexing into a value map: `undefined` when the key is absent. -/
def jsGet (m : RMap Value) (k : String) : Value :=
  (m.get? k).getD Value.undef

theorem get?_set_self (m : RMap α) (k : String) (v : α) :
    (m.set k v).get? k = some v := by
  induction m with
  | nil => simp [set, get?]
  | cons p rest ih =>
      by_cases h : p.1 = k
      · simp [set, h, get?]
      · simp [set, h, get?, ih]

theorem get?_set_ne (m : RMap α) (k k' : String) (v : α) (h : k' ≠ k) :
    (m.set k v).get? k' = m.get? k' := by
  have h' : ¬ k = k' := fun hh => h hh.symm
  induction m with
  | nil => simp [set, get?, h']
  | cons p rest ih =>
      by_cases hp : p.1 = k
      · subst hp
        simp [set, get?, h']
      · simp only [set, hp, if_neg hp, get?]
        by_cases hp' : p.1 = k'
        · simp [hp']
        · simp [hp', ih]

theorem contains_set (m : RMap α) (k k' : String) (v : α)
    (h : (m.set k v).contains k' = true) :
    k' = k ∨ m.contains k' = true := by
  by_cases hk : k' = k
  · exact Or.inl hk
  · right
    unfold contains at h ⊢
    rwa [get?_set_ne m k k' v hk] at h

end RMap

/-- The `type` discriminant of a field descriptor (src/types). -/
inductive FieldType where
  | text
  | email
  | password
  | textarea
  | number
  | checkbox
  | select
  | multiselect
  deriving DecidableEq, Repr

/-- A field descriptor: the attributes of `BaseField` that the form-state
dynamics read (src/types/BaseField.ts). Variant-specific extras
(option lists, min/max/step, maxLength) and the purely presentational
attributes only affect rendering, not the state transitions, and are
omitted from the dynamic model. -/
structure FormField where
  type : FieldType
  name : String
  label : String
  visibleIf : Option (RMap Value → Bool)

/-- FormBuilder.tsx lines 20-32: the per-variant default value. -/
def defaultFor (field : FormField) : Value :=
  match field.type with
  | .checkbox => .bool false
  | .multiselect => .list []
  | .select => .str ""
  | .number => .str ""
  | .textarea | .text | .email | .password => .str ""

/-- FormBuilder.tsx lines 45-49: seed the value map from the schema and the
supplied initial values (initial value when its key is present, else the
variant default). -/
def initialComputed (fields : List FormField) (initialValues : RMap Value) :
    RMap Value :=
  fields.foldl
    (fun seed f =>
      seed.set f.name
        (if initialValues.contains f.name then initialValues.jsGet f.name
         else defaultFor f))
    []

/-- FormBuilder.tsx lines 56-62: on a schema change, rebuild the value map
from the new schema, keeping the previous value when the name is already a
key of the previous map and defaulting otherwise. -/
def fieldsEffect (fields : List FormField) (prev : RMap Value) : RMap Value :=
  fields.foldl
    (fun next f =>
      next.set f.name
        (if prev.contains f.name then prev.jsGet f.name else defaultFor f))
    []

/-- FormBuilder.tsx lines 65-69: when the supplied initial values change and
are non-empty, spread them over the previous value map. -/
def initialValuesEffect (initialValues : RMap Value) (prev : RMap Value) :
    RMap Value :=
  if (initialValues.keys).length = 0 then prev else prev.merge initialValues

/-- The state FormBuilder tracks: the value map and the error map. -/
structure FormState where
  formValues : RMap Value
  errors : RMap String
  deriving DecidableEq, Repr

/-- The target of a DOM change event, as FormBuilder.tsx lines 88-101
discriminates it: a checkbox input, a number input (carrying both the raw
text and its numeric value, JS valueAsNumber), a multiple-select (carrying
the selected option values), or any other control (raw string value). -/
inductive ChangeEventTarget where
  | inputCheckbox (name : String) (checked : Bool)
  | inputNumber (name : String) (value : String) (valueAsNumber : Int)
  | selectMultiple (name : String) (selectedOptions : List String)
  | plain (name : String) (value : String)
  deriving DecidableEq, Repr

/-- The name read from the event target (FormBuilder.tsx line 90). -/
def targetName : ChangeEventTarget → String
  | .inputCheckbox n _ => n
  | .inputNumber n _ _ => n
  | .selectMultiple n _ => n
  | .plain n _ => n

/-- FormBuilder.tsx lines 92-101: type-specific value coercion. A checkbox
contributes its checked state; a number input keeps the empty string when
its text is empty and its numeric value otherwise; a multiple-select
contributes the array of selected option values; anything else its raw
string value. -/
def coerceValue : ChangeEventTarget → Value
  | .inputCheckbox _ checked => .bool checked
  | .inputNumber _ v van => if v = "" then .str "" else .num van
  | .selectMultiple _ opts => .list opts
  | .plain _ v => .str v

/-- The two input shapes of handleFieldChange (FormBuilder.tsx lines 72-77):
a direct (name, value) pair from a custom component, or a DOM change
event. -/
inductive ChangeArg where
  | pair (name : String) (value : Value)
  | event (target : ChangeEventTarget)

/-- FormBuilder.tsx lines 72-105: set the named field's value and write the
empty string into its error entry, for either input shape. -/
def handleFieldChange (arg : ChangeArg) (st : FormState) : FormState :=
  match arg with
  | .pair name value =>
      ⟨st.formValues.set name value, st.errors.set name ""⟩
  | .event t =>
      ⟨st.formValues.set (targetName t) (coerceValue t),
       st.errors.set (targetName t) ""⟩

/-- The field name an input shape addresses. -/
def changeName : ChangeArg → String
  | .pair n _ => n
  | .event t => targetName t

/-- The value an input shape stores (after event coercion). -/
def changeValue : ChangeArg → Value
  | .pair _ v => v
  | .event t => coerceValue t

/-- FormBuilder.tsx lines 107-112: reset every field to its variant default
and clear the error map. -/
def doReset (fields : List FormField) : FormState :=
  ⟨fields.foldl (fun reset f => reset.set f.name (defaultFor f)) [], []⟩

/-- FormBuilder.tsx line 120 guard: a field is visible when it has no
visibility predicate or its predicate holds of the current full value
map. -/
def isVisible (f : FormField) (formValues : RMap Value) : Bool :=
  match f.visibleIf with
  | none => true
  | some p => p formValues

/-- FormBuilder.tsx lines 117-121: the visible-value subset submitted for
validation and to the handler. -/
def visibleValues (fields : List FormField) (formValues : RMap Value) :
    RMap Value :=
  fields.foldl
    (fun acc f =>
      if isVisible f formValues then acc.set f.name (formValues.jsGet f.name)
      else acc)
    []

/-- FormBuilder.tsx lines 114-134: a submit attempt. Returns the next form
state together with the payload the submission handler is invoked with
(`none` when validation aborts the submission). A validator returns either
an error map or null (`Option`); null is replaced by the empty map
(JS or-else on line 125). -/
def handleSubmit (fields : List FormField)
    (validate : Option (RMap Value → Option (RMap String)))
    (st : FormState) : FormState × Option (RMap Value) :=
  let vis := visibleValues fields st.formValues
  match validate with
  | some v =>
      let nextErrors := (v vis).getD []
      if (nextErrors.keys).length > 0 then (⟨st.formValues, nextErrors⟩, none)
      else (⟨st.formValues, nextErrors⟩, some vis)
  | none => (st, some vis)

/-- FormBuilder.tsx lines 130-133: after the submission handler completes
successfully, reset if and only if resetOnSubmit is set. -/
def afterSubmitSuccess (fields : List FormField) (resetOnSubmit : Bool)
    (st : FormState) : FormState :=
  if resetOnSubmit then doReset fields else st

/-- ActiveLink.tsx lines 19-23. The current path is `none` when the hosting
router supplies no path; a JS falsy test also treats the empty string as
unavailable, hence the explicit empty-string guard. -/
def isActive (pathname : Option String) (href : String) (exact : Bool) :
    Bool :=
  match pathname with
  | none => false
  | some p =>
      if p = "" then false
      else if exact then p == href else p.startsWith href

/-! Generic lemmas about maps built by folding a schema, the shape shared by
initialComputed, fieldsEffect, doReset (unconditional write per field) and
visibleValues (write guarded by a per-field condition). -/

theorem foldl_set_get?_not_mem (g : FormField → Value) (fields : List FormField)
    (acc : RMap Value) (k : String) (hk : k ∉ fields.map FormField.name) :
    (fields.foldl (fun m f => m.set f.name (g f)) acc).get? k = acc.get? k := by
  induction fields generalizing acc with
  | nil => rfl
  | cons f rest ih =>
      rw [List.map_cons, List.mem_cons] at hk
      push_neg at hk
      rw [List.foldl_cons, ih _ hk.2, RMap.get?_set_ne acc f.name k (g f) hk.1]

theorem foldl_set_get?_mem (g : FormField → Value) (fields : List FormField)
    (hnd : (fields.map FormField.name).Nodup) (f : FormField) (hf : f ∈ fields)
    (acc : RMap Value) :
    (fields.foldl (fun m f => m.set f.name (g f)) acc).get? f.name =
      some (g f) := by
  induction fields generalizing acc with
  | nil => cases hf
  | cons f0 rest ih =>
      rw [List.map_cons, List.nodup_cons] at hnd
      rcases List.mem_cons.mp hf with h | h
      · subst h
        rw [List.foldl_cons,
          foldl_set_get?_not_mem g rest _ f.name hnd.1, RMap.get?_set_self]
      · rw [List.foldl_cons]
        exact ih hnd.2 h _

theorem foldl_setIf_get?_not_mem (c : FormField → Bool) (g : FormField → Value)
    (fields : List FormField) (acc : RMap Value) (k : String)
    (hk : k ∉ fields.map FormField.name) :
    (fields.foldl (fun m f => if c f then m.set f.name (g f) else m) acc).get? k
      = acc.get? k := by
  induction fields generalizing acc with
  | nil => rfl
  | cons f rest ih =>
      rw [List.map_cons, List.mem_cons] at hk
      push_neg at hk
      rw [List.foldl_cons, ih _ hk.2]
      by_cases hc : c f
      · rw [if_pos hc, RMap.get?_set_ne acc f.name k (g f) hk.1]
      · rw [if_neg hc]

theorem foldl_setIf_get?_mem (c : FormField → Bool) (g : FormField → Value)
    (fields : List FormField) (hnd : (fields.map FormField.name).Nodup)
    (f : FormField) (hf : f ∈ fields) (acc : RMap Value) :
    (fields.foldl (fun m f => if c f then m.set f.name (g f) else m) acc).get?
        f.name =
      if c f then some (g f) else acc.get? f.name := by
  induction fields generalizing acc with
  | nil => cases hf
  | cons f0 rest ih =>
      rw [List.map_cons, List.nodup_cons] at hnd
      rcases List.mem_cons.mp hf with h | h
      · subst h
        rw [List.foldl_cons,
          foldl_setIf_get?_not_mem c g rest _ f.name hnd.1]
        by_cases hc : c f
        · rw [if_pos hc, if_pos hc, RMap.get?_set_self]
        · rw [if_neg hc, if_neg hc]
      · rw [List.foldl_cons]
        rw [ih hnd.2 h]
        by_cases hc : c f
        · rw [if_pos hc, if_pos hc]
        · rw [if_neg hc, if_neg hc]
          have hne : f.name ≠ f0.name := by
            intro heq
            exact hnd.1 (heq ▸ List.mem_map_of_mem FormField.name h)
          by_cases hc0 : c f0
          · rw [if_pos hc0, RMap.get?_set_ne acc f0.name f.name (g f0) hne]
          · rw [if_neg hc0]

theorem foldl_set_contains (g : FormField → Value)
    (fields : List FormField) (acc : RMap Value) (k : String)
    (h : ((fields.foldl (fun m f => m.set f.name (g f)) acc).contains k)
      = true) :
    acc.contains k = true ∨ k ∈ fields.map FormField.name := by
  induction fields generalizing acc with
  | nil => exact Or.inl h
  | cons f rest ih =>
      rw [List.foldl_cons] at h
      rcases ih _ h with h' | h'
      · rcases RMap.contains_set acc f.name k (g f) h' with h'' | h''
        · exact Or.inr (by
            rw [h'']
            exact List.mem_map_of_mem _ (List.mem_cons_self f rest))
        · exact Or.inl h''
      · exact Or.inr (by rw [List.map_cons]; exact List.mem_cons_of_mem _ h')

theorem foldl_setIf_contains (c : FormField → Bool) (g : FormField → Value)
    (fields : List FormField) (acc : RMap Value) (k : String)
    (h : ((fields.foldl (fun m f => if c f then m.set f.name (g f) else m)
        acc).contains k) = true) :
    acc.contains k = true ∨ k ∈ fields.map FormField.name := by
  induction fields generalizing acc with
  | nil => exact Or.inl h
  | cons f rest ih =>
      rw [List.foldl_cons] at h
      rcases ih _ h with h' | h'
      · by_cases hc : c f
        · rw [if_pos hc] at h'
          rcases RMap.contains_set acc f.name k (g f) h' with h'' | h''
          · exact Or.inr (by rw [h'']; exact List.mem_map_of_mem _ (List.mem_cons_self f rest))
          · exact Or.inl h''
        · rw [if_neg hc] at h'
          exact Or.inl h'
      · exact Or.inr (by rw [List.map_cons]; exact List.mem_cons_of_mem _ h')

/-! Concrete demo inputs used by the witness theorems. -/

/-- A field with only the attributes the dynamics read. -/
def wField (t : FieldType) (nm : String) : FormField :=
  ⟨t, nm, nm, none⟩

/-- Demo schema covering every variant family. -/
def initFields : List FormField :=
  [wField FieldType.text "username", wField FieldType.checkbox "subscribe",
   wField FieldType.number "age", wField FieldType.multiselect "tags",
   wField FieldType.select "plan"]

/-- Demo supplied initial values: only the username is seeded. -/
def initVals : RMap Value :=
  [("username", Value.str "Ada")]

/-- Demo schema for the schema-change transition. -/
def changeFields : List FormField :=
  [wField FieldType.text "keep", wField FieldType.number "age"]

/-- Demo previous value map: one surviving entry, one for a removed field. -/
def changePrev : RMap Value :=
  [("keep", Value.str "v"), ("gone", Value.str "w")]

/-! Claim theorems. -/

/-- C8 counterexample: the claim states that with exact=true the decision
holds iff the current path equals the target, for all current paths; but on
the empty current path (JS-falsy, caught by the guard on ActiveLink.tsx
line 20) the code returns false even though the paths are equal. -/
theorem isActive_exact_eq_counterexample :
    ¬ ((isActive (some "") "" true = true) ↔ ("" : String) = "") := by
  decide

/-- C8 (amended): for every non-empty current path P, the decision with
exact=true holds iff P equals the target, and with exact=false iff P starts
with the target; when the current path is null or empty (JS-falsy, treated
as unavailable) the result is false regardless of the other inputs. -/
theorem isActive_spec (p t : String) (hp : p ≠ "") :
    ((isActive (some p) t true = true) ↔ p = t) ∧
    ((isActive (some p) t false = true) ↔ p.startsWith t = true) ∧
    isActive none t true = false ∧
    isActive none t false = false ∧
    isActive (some "") t true = false ∧
    isActive (some "") t false = false := by
  refine ⟨?_, ?_, rfl, rfl, by simp [isActive], by simp [isActive]⟩
  · simp [isActive, hp]
  · simp [isActive, hp]

/-- C8 witness: the amended statement at the concrete path /login. -/
theorem isActive_spec_witness :
    ((isActive (some "/login") "/login" true = true) ↔
      ("/login" : String) = "/login") ∧
    ((isActive (some "/login") "/login" false = true) ↔
      ("/login" : String).startsWith "/login" = true) ∧
    isActive none "/login" true = false ∧
    isActive none "/login" false = false ∧
    isActive (some "") "/login" true = false ∧
    isActive (some "") "/login" false = false :=
  isActive_spec "/login" "/login" (by decide)

/-- C3: for every field of the schema, the seeded value is the supplied
initial value when one is present under the field's name, and otherwise the
variant's documented default (false for checkbox, empty sequence for
multiselect, empty string for select, number, and the text family). -/
theorem initialize_spec (fields : List FormField) (initialValues : RMap Value)
    (hnd : (fields.map FormField.name).Nodup) (f : FormField)
    (hf : f ∈ fields) :
    (initialComputed fields initialValues).get? f.name =
      some (if initialValues.contains f.name then initialValues.jsGet f.name
            else match f.type with
                 | FieldType.checkbox => Value.bool false
                 | FieldType.multiselect => Value.list []
                 | FieldType.select => Value.str ""
                 | FieldType.number => Value.str ""
                 | FieldType.textarea | FieldType.text | FieldType.email
                 | FieldType.password => Value.str "") := by
  have h := foldl_set_get?_mem
      (fun f =>
        if initialValues.contains f.name then initialValues.jsGet f.name
        else defaultFor f) fields hnd f hf []
  have hd : defaultFor f = (match f.type with
      | FieldType.checkbox => Value.bool false
      | FieldType.multiselect => Value.list []
      | FieldType.select => Value.str ""
      | FieldType.number => Value.str ""
      | FieldType.textarea | FieldType.text | FieldType.email
      | FieldType.password => Value.str "") := by
    obtain ⟨t, nm, lb, vi⟩ := f
    cases t <;> rfl
  rw [← hd]
  exact h

/-- C3 witness: in the demo schema with an initial value only for username,
the checkbox field seeds false and the username field seeds the supplied
value. -/
theorem initialize_spec_witness :
    (initialComputed initFields initVals).get? "subscribe" =
      some (Value.bool false) :=
  initialize_spec initFields initVals (by decide)
    (wField FieldType.checkbox "subscribe")
    (List.mem_cons_of_mem _ (List.mem_cons_self _ _))

/-- C4: the schema-change transition keeps the existing value of every field
whose name was already a key of the previous value map, seeds the variant
default for newly appearing fields, and drops every entry whose key names no
field of the new schema. -/
theorem schema_change_spec (fields : List FormField) (prev : RMap Value)
    (hnd : (fields.map FormField.name).Nodup) :
    (∀ f ∈ fields, (fieldsEffect fields prev).get? f.name =
       some (if prev.contains f.name then prev.jsGet f.name
             else defaultFor f)) ∧
    (∀ k, (fieldsEffect fields prev).contains k = true →
       k ∈ fields.map FormField.name) := by
  constructor
  · intro f hf
    exact foldl_set_get?_mem _ fields hnd f hf []
  · intro k hk
    rcases foldl_set_contains _ fields [] k hk with h | h
    · simp [RMap.contains, RMap.get?] at h
    · exact h

/-- C4 witness: in the demo transition the surviving field keeps its value,
the new field seeds its default, and a key present in the result is a field
name of the new schema (the entry of the removed field is gone). -/
theorem schema_change_spec_witness :
    (fieldsEffect changeFields changePrev).get? "keep" =
      some (Value.str "v") ∧
    (fieldsEffect changeFields changePrev).get? "age" =
      some (Value.str "") ∧
    "keep" ∈ changeFields.map FormField.name :=
  ⟨(schema_change_spec changeFields changePrev (by decide)).1
      (wField FieldType.text "keep") (List.mem_cons_self _ _),
   (schema_change_spec changeFields changePrev (by decide)).1
      (wField FieldType.number "age")
      (List.mem_cons_of_mem _ (List.mem_cons_self _ _)),
   (schema_change_spec changeFields changePrev (by decide)).2 "keep"
      (by decide)⟩

/-- Demo visibility predicate: the plan field shows only while the subscribe
value is the boolean true. -/
def planVisible (vals : RMap Value) : Bool :=
  match vals.jsGet "subscribe" with
  | Value.bool b => b
  | _ => false

/-- Demo schema with a conditionally visible field. -/
def visFields : List FormField :=
  [wField FieldType.checkbox "subscribe",
   ⟨FieldType.select, "plan", "plan", some planVisible⟩]

/-- Demo value map: subscribe is off while plan holds a stale non-default
value. -/
def visVals : RMap Value :=
  [("subscribe", Value.bool false), ("plan", Value.str "pro")]

/-- C2: for a schema without duplicate names, the visible-value subset has
an entry for a field precisely when the field has no visibility predicate or
its predicate holds of the current full value map, and that entry carries
the field's current value; a field whose predicate is false is absent even
when it holds a non-default value. -/
theorem visible_subset_spec (fields : List FormField) (vals : RMap Value)
    (hnd : (fields.map FormField.name).Nodup) (f : FormField)
    (hf : f ∈ fields) :
    (visibleValues fields vals).get? f.name =
      if isVisible f vals then some (vals.jsGet f.name) else none := by
  have h := foldl_setIf_get?_mem (fun f => isVisible f vals)
      (fun f => vals.jsGet f.name) fields hnd f hf []
  simpa [visibleValues, RMap.get?] using h

/-- C2 witness: with subscribe off, the plan entry is absent from the
payload despite its stale value, while the subscribe entry is present. -/
theorem visible_subset_spec_witness :
    (visibleValues visFields visVals).get? "plan" = none ∧
    (visibleValues visFields visVals).get? "subscribe" =
      some (Value.bool false) :=
  ⟨visible_subset_spec visFields visVals (by decide)
      ⟨FieldType.select, "plan", "plan", some planVisible⟩
      (List.mem_cons_of_mem _ (List.mem_cons_self _ _)),
   visible_subset_spec visFields visVals (by decide)
      (wField FieldType.checkbox "subscribe") (List.mem_cons_self _ _)⟩

/-- Helper: whenever a submit attempt hands a payload to the submission
handler, that payload is the visible-value subset of the current values. -/
theorem handleSubmit_payload (fields : List FormField)
    (validate : Option (RMap Value → Option (RMap String)))
    (st : FormState) (payload : RMap Value)
    (hp : (handleSubmit fields validate st).2 = some payload) :
    payload = visibleValues fields st.formValues := by
  cases validate with
  | none =>
      simp [handleSubmit] at hp
      exact hp.symm
  | some v =>
      by_cases hlen :
          ((v (visibleValues fields st.formValues)).getD []).keys.length > 0
      · simp [handleSubmit, hlen] at hp
      · simp [handleSubmit, hlen] at hp
        exact hp.symm

/-- C10: every key of a payload handed to the submission handler is a field
name of the current schema, even when the value map was previously
shallow-merged with supplied initial values whose keys name no field. -/
theorem submit_payload_keys (fields : List FormField)
    (validate : Option (RMap Value → Option (RMap String)))
    (initialValues prev : RMap Value) (errors : RMap String)
    (k : String) (payload : RMap Value)
    (hp : (handleSubmit fields validate
        ⟨initialValuesEffect initialValues prev, errors⟩).2 = some payload)
    (hk : payload.contains k = true) :
    k ∈ fields.map FormField.name := by
  have hpay := handleSubmit_payload fields validate
      ⟨initialValuesEffect initialValues prev, errors⟩ payload hp
  rw [hpay] at hk
  rcases foldl_setIf_contains _ _ fields [] k hk with h | h
  · simp [RMap.contains, RMap.get?] at h
  · exact h

/-- Demo supplied initial values carrying a key that names no field. -/
def strayInit : RMap Value :=
  [("stray", Value.str "x"), ("keep", Value.str "v")]

/-- C10 witness: after merging initial values with a stray key, a key found
in the handler payload is a schema field name. -/
theorem submit_payload_keys_witness :
    "keep" ∈ changeFields.map FormField.name :=
  submit_payload_keys changeFields none strayInit [] [] "keep"
    [("keep", Value.str "v"), ("age", Value.undef)] (by decide) (by decide)

/-- C5: for either input shape of the field-change operation, exactly the
addressed field's value is set to the (coerced) new value and exactly its
error entry is overwritten with the empty string; every other field's value
and error entry is unchanged. -/
theorem field_change_spec (arg : ChangeArg) (st : FormState) :
    ((handleFieldChange arg st).formValues.get? (changeName arg) =
       some (changeValue arg)) ∧
    ((handleFieldChange arg st).errors.get? (changeName arg) = some "") ∧
    (∀ m, m ≠ changeName arg →
       (handleFieldChange arg st).formValues.get? m = st.formValues.get? m ∧
       (handleFieldChange arg st).errors.get? m = st.errors.get? m) := by
  cases arg with
  | pair n v =>
      refine ⟨RMap.get?_set_self _ _ _, RMap.get?_set_self _ _ _, ?_⟩
      intro m hm
      exact ⟨RMap.get?_set_ne _ _ _ _ hm, RMap.get?_set_ne _ _ _ _ hm⟩
  | event t =>
      refine ⟨RMap.get?_set_self _ _ _, RMap.get?_set_self _ _ _, ?_⟩
      intro m hm
      exact ⟨RMap.get?_set_ne _ _ _ _ hm, RMap.get?_set_ne _ _ _ _ hm⟩

/-- Demo state with two fields carrying values and errors. -/
def demoSt : FormState :=
  ⟨[("a", Value.str "old"), ("b", Value.num 2)],
   [("a", "bad"), ("b", "worse")]⟩

/-- C5 witness: changing field a updates its value, blanks its error, and
leaves field b's value and error untouched. -/
theorem field_change_spec_witness :
    ((handleFieldChange (ChangeArg.pair "a" (Value.str "new"))
        demoSt).formValues.get? "a" = some (Value.str "new")) ∧
    ((handleFieldChange (ChangeArg.pair "a" (Value.str "new"))
        demoSt).errors.get? "a" = some "") ∧
    ((handleFieldChange (ChangeArg.pair "a" (Value.str "new"))
        demoSt).formValues.get? "b" = demoSt.formValues.get? "b" ∧
     (handleFieldChange (ChangeArg.pair "a" (Value.str "new"))
        demoSt).errors.get? "b" = demoSt.errors.get? "b") :=
  ⟨(field_change_spec (ChangeArg.pair "a" (Value.str "new")) demoSt).1,
   (field_change_spec (ChangeArg.pair "a" (Value.str "new")) demoSt).2.1,
   (field_change_spec (ChangeArg.pair "a" (Value.str "new")) demoSt).2.2 "b"
     (by decide)⟩

/-- C6: a number input changed through a raw event stores the empty string
when the input text is empty and the numeric value otherwise; clearing the
field keeps the empty string rather than a number. -/
theorem number_clear_spec (nm raw : String) (van : Int) (st : FormState) :
    (handleFieldChange (ChangeArg.event
        (ChangeEventTarget.inputNumber nm raw van)) st).formValues.get? nm =
      some (if raw = "" then Value.str "" else Value.num van) :=
  RMap.get?_set_self _ _ _

/-- C7: with reset-on-submit enabled, the state after a successful
submission seeds every field with its variant default (independently of any
supplied initial values) and clears the error map; with it disabled, the
state is unchanged. -/
theorem reset_on_submit_spec (fields : List FormField)
    (hnd : (fields.map FormField.name).Nodup) (st : FormState) :
    (∀ f ∈ fields,
       (afterSubmitSuccess fields true st).formValues.get? f.name =
         some (defaultFor f)) ∧
    (afterSubmitSuccess fields true st).errors = [] ∧
    afterSubmitSuccess fields false st = st := by
  refine ⟨?_, rfl, rfl⟩
  intro f hf
  exact foldl_set_get?_mem defaultFor fields hnd f hf []

/-- Demo state holding non-default values and an error before submission
completes. -/
def submittedSt : FormState :=
  ⟨[("username", Value.str "Ada"), ("subscribe", Value.bool true),
    ("age", Value.num 36), ("tags", Value.list ["x"]),
    ("plan", Value.str "pro")],
   [("age", "too old")]⟩

/-- C7 witness: after a successful submission with reset-on-submit on, the
username returns to the empty string (not its initial value) and errors
clear; with it off the state is untouched. -/
theorem reset_on_submit_spec_witness :
    (afterSubmitSuccess initFields true submittedSt).formValues.get?
      "username" = some (Value.str "") ∧
    (afterSubmitSuccess initFields true submittedSt).errors = [] ∧
    afterSubmitSuccess initFields false submittedSt = submittedSt :=
  ⟨(reset_on_submit_spec initFields (by decide) submittedSt).1
      (wField FieldType.text "username") (List.mem_cons_self _ _),
   (reset_on_submit_spec initFields (by decide) submittedSt).2.1,
   (reset_on_submit_spec initFields (by decide) submittedSt).2.2⟩

/-- C1: on a submit attempt with a validator supplied, the error state is
wholesale replaced by the validator's result applied to the visible-value
subset (a null result becomes the empty map); the handler receives the
visible-value subset exactly when that error map is empty and is not
invoked otherwise. -/
theorem submit_validation_spec (fields : List FormField)
    (v : RMap Value → Option (RMap String)) (st : FormState) :
    (handleSubmit fields (some v) st).1.errors =
      (v (visibleValues fields st.formValues)).getD [] ∧
    (handleSubmit fields (some v) st).2 =
      (if ((v (visibleValues fields st.formValues)).getD []).keys.length = 0
       then some (visibleValues fields st.formValues) else none) := by
  by_cases h :
      ((v (visibleValues fields st.formValues)).getD []).keys.length = 0
  · constructor <;> simp [handleSubmit, h]
  · constructor <;> simp [handleSubmit, h, Nat.pos_of_ne_zero h]

end AlphaPortfolio
